import Mathlib

/-!
# Bolt `transform_reduce`: a shallow embedding and its verified properties

The development follows `include/bolt/cl/detail/transform_reduce.inl` and
`BoltForOpenCL/clbolt/functional.h`.

* Host sequences and device-resident sequences are lists; an iterator pair
  `(first, last)` is the list of elements between them.
* Function-local statics of `transform_reduce_enqueue` and the observable effects of a
  call (device requests, console output, host algorithm calls) are carried explicitly in a
  `World` value that every operation receives and returns.
* A thrown `::cl::Error` is the `Except.error` result.
* `size_t` and `int` quantities are natural numbers: `int` values are taken non-negative
  and within range (signed overflow has no defined behaviour in the source language);
  `cl_uint` is reduced modulo `2 ^ 32` where the source narrows to it.
* Single-precision arithmetic is modelled exactly (IEEE-754 binary32, round to nearest,
  ties to even) on the integer operands the source feeds it.
* Requests to the device (buffer acquisition, kernel launch, mapping, queries) are taken
  to succeed; the contents of the result buffer after the launch are a parameter.
-/

namespace clbolt

/-- Functor `plus<T>`: `lhs + rhs`. -/
def plus {T : Type} [Add T] (lhs rhs : T) : T := lhs + rhs

/-- Functor `minus<T>`: `lhs - rhs`. -/
def minus {T : Type} [Sub T] (lhs rhs : T) : T := lhs - rhs

/-- Functor `multiplies<T>`: `lhs * rhs`. -/
def multiplies {T : Type} [Mul T] (lhs rhs : T) : T := lhs * rhs

/-- Functor `maximum<T>`: `rhs > lhs ? rhs : lhs`. -/
def maximum {T : Type} [LT T] [DecidableRel (fun a b : T => a < b)] (lhs rhs : T) : T :=
  if lhs < rhs then rhs else lhs

/-- Functor `minimum<T>`: `rhs < lhs ? rhs : lhs`. -/
def minimum {T : Type} [LT T] [DecidableRel (fun a b : T => a < b)] (lhs rhs : T) : T :=
  if rhs < lhs then rhs else lhs

/-- Functor `square<T>`: `x * x`. -/
def square {T : Type} [Mul T] (x : T) : T := x * x

/-- Functor `negate<T>`: `-x`. -/
def negate {T : Type} [Neg T] (x : T) : T := -x

end clbolt

namespace bolt.cl

/-- Modelled from the spec: the enumeration `control::e_RunMode` is declared in
`bolt/cl/control.h`, which is not among the sources.  `SerialCpu` and `MultiCoreCpu` are
the two values the code compares against; `Accelerator` stands for every other value,
which the code sends to the final `else` branch. -/
inductive e_RunMode where
  | SerialCpu
  | MultiCoreCpu
  | Accelerator
  deriving DecidableEq, Repr

/-- Modelled from the spec: the class `control` is declared in `bolt/cl/control.h`, which is
not among the sources.  The record holds the values the code reads from it:
`forceRunMode()`, `device().getInfo<CL_DEVICE_MAX_COMPUTE_UNITS>()`, `wgPerComputeUnit()`
and the value the device reports for
`getWorkGroupInfo<CL_KERNEL_PREFERRED_WORK_GROUP_SIZE_MULTIPLE>` on the compiled kernel. -/
structure control where
  forceRunMode : e_RunMode
  maxComputeUnits : Nat
  wgPerComputeUnit : Nat
  preferredWorkGroupSizeMultiple : Nat
  deriving DecidableEq, Repr

/-- Error codes carried by a thrown `::cl::Error`. -/
inductive cl_Error where
  | CL_INVALID_DEVICE
  deriving DecidableEq, Repr

namespace detail

/-- The struct `kernelParams`: the five type names of one instantiation. -/
structure kernelParams where
  inValueNakedType : String
  inValueIterType : String
  outValueNakedType : String
  transformFunctorTypeName : String
  reduceFunctorTypeName : String
  deriving DecidableEq, Repr, Inhabited

/-- What the `TypeName`, `ClCode` and `sizeof` lookups give for one template instantiation
of `transform_reduce_enqueue` (those traits are declared outside the sources): `args` are
the five `TypeName<..>::get()` strings, `clCode` is the concatenation of the
`ClCode<..>::get()` strings that the source appends to `user_code`. -/
structure Instantiation where
  args : kernelParams
  clCode : String
  sizeofUnaryFunction : Nat
  sizeofBinaryFunction : Nat
  sizeofOType : Nat
  deriving DecidableEq, Repr, Inhabited

/-- A compiled `::cl::Kernel`, identified by what it was built from. -/
structure Kernel where
  typeDefinitions : String
  params : kernelParams
  deriving DecidableEq, Repr

/-- Observable effects of a call, in program order. -/
inductive Event where
  | forceRunMode
  | hostTransform (szElements : Nat)
  | hostAccumulate (szElements : Nat)
  | coutNotImplemented
  | stageInput (szElements : Nat)
  | constructAndCompile (kp : kernelParams)
  | acquireBuffer (bytes : Nat)
  | enqueueNDRangeKernel (globalSize localSize : Nat)
  | enqueueMapBuffer (bytes : Nat)
  | wait
  | readResult (i : Nat)
  deriving DecidableEq, Repr

/-- The statics `initOnlyOnce` and `masterKernel` of one instantiation of
`transform_reduce_enqueue`, together with the effects observed so far. -/
structure World where
  initOnlyOnce : Bool
  masterKernel : Option Kernel
  trace : List Event
  deriving DecidableEq, Repr

/-- The state at program start: flag clear, kernel object empty, nothing observed. -/
def World.initial : World := ⟨false, none, []⟩

/-- Append one effect to the trace. -/
def World.log (w : World) (e : Event) : World := { w with trace := w.trace ++ [e] }

/-- The function `CallCompiler_TransformReduce::constructAndCompile`: builds the kernel for
`kp` and the given type definitions and stores it in `masterKernel`. -/
def constructAndCompile (typeDefinitions : String) (kp : kernelParams) (_ctl : control)
    (w : World) : World :=
  { w with masterKernel := some ⟨typeDefinitions, kp⟩,
           trace := w.trace ++ [Event.constructAndCompile kp] }

/-- The call `boost::call_once(flag, f)`: runs `f` when the flag is clear and then sets it;
does nothing when the flag is set. -/
def call_once (w : World) (f : World → World) : World :=
  if w.initOnlyOnce then w else { f w with initOnlyOnce := true }

/-- Round the rational `num / den` to the nearest integer, ties to the even one. -/
def roundNearestEven (num den : Nat) : Nat :=
  let f := num / den
  let r := num % den
  if 2 * r < den then f
  else if den < 2 * r then f + 1
  else if f % 2 = 0 then f else f + 1

/-- Auxiliary for `ilog2`: halve until below two. -/
def ilog2Aux : Nat → Nat → Nat
  | 0, _ => 0
  | fuel + 1, x => if x < 2 then 0 else ilog2Aux fuel (x / 2) + 1

/-- The binary exponent of a positive integer: `floor (log2 x)`. -/
def ilog2 (x : Nat) : Nat := ilog2Aux x x

/-- The conversion of an unsigned integer to `float`: the value of the nearest binary32
number (24 significant bits).  The result is again an integer. -/
def toFloat (x : Nat) : Nat :=
  let e := ilog2 x
  if e ≤ 23 then x else roundNearestEven x (2 ^ (e - 23)) * 2 ^ (e - 23)

/-- Auxiliary for `negExp`: search upward for the first `k` with `b ≤ a * 2 ^ k`. -/
def negExpAux (a b : Nat) : Nat → Nat → Nat
  | 0, k => k
  | fuel + 1, k => if b ≤ a * 2 ^ k then k else negExpAux a b fuel (k + 1)

/-- For `0 < a < b`: the least `k` with `b ≤ a * 2 ^ k`, so that `-k` is the binary
exponent of the quotient `a / b`. -/
def negExp (a b : Nat) : Nat := negExpAux a b b 0

/-- The value `ceil (a / b)` where `a` and `b` are integer-valued floats and `/` is the
binary32 division: the exact quotient is rounded to 24 significant bits (scaled by
`2 ^ t` so that the significand is an integer), then the ceiling is taken.  A zero
operand gives `0` (the source never divides by zero: the device reports a positive
work-group size). -/
def ceilFloatDiv (a b : Nat) : Nat :=
  if a = 0 ∨ b = 0 then 0
  else if b ≤ a then
    let e := ilog2 (a / b)
    if e ≤ 23 then
      let t := 23 - e
      (roundNearestEven (a * 2 ^ t) b + 2 ^ t - 1) / 2 ^ t
    else
      roundNearestEven a (b * 2 ^ (e - 23)) * 2 ^ (e - 23)
  else
    let t := 23 + negExp a b
    (roundNearestEven (a * 2 ^ t) b + 2 ^ t - 1) / 2 ^ t

/-- The expression `ceil((float)szElements / wgSize)` of the source, used both for
`requiredWorkGroups` and for `ceilNumWG`. -/
def ceilFloat (szElements wgSize : Nat) : Nat :=
  ceilFloatDiv (toFloat szElements) (toFloat wgSize)

/-- The launch grid sizing of `transform_reduce_enqueue`: `numWG` starts at
`computeUnits * wgPerComputeUnit` and is replaced by `requiredWorkGroups` when that is
smaller.  The result is the `numWG` used for the NDRange. -/
def launchNumWG (computeUnits wgPerComputeUnit wgSize szElements : Nat) : Nat :=
  let numWG := computeUnits * wgPerComputeUnit
  let requiredWorkGroups := ceilFloat szElements wgSize
  if requiredWorkGroups < numWG then requiredWorkGroups else numWG

/-- The count `numTailReduce = min_size_t(ceilNumWG, numWG)` of the host tail reduction;
`min_size_t` is the functor `minimum<size_t>`. -/
def numTailReduce (szElements wgSize numWG : Nat) : Nat :=
  let ceilNumWG := ceilFloat szElements wgSize
  clbolt.minimum ceilNumWG numWG

/-- The loop `for (i = 0; i < numTailReduce; ++i) acc = reduce_op(acc, h_result[i])`,
started at index `i` with accumulator `acc`; `fuel` bounds the number of iterations.
The indices read from `h_result` are returned with the accumulator. -/
def tailLoop {oType : Type} (reduce_op : oType → oType → oType) (h_result : Nat → oType)
    (numTailReduce : Nat) : Nat → Nat → oType → List Nat → oType × List Nat
  | 0, _, acc, reads => (acc, reads)
  | fuel + 1, i, acc, reads =>
    if i < numTailReduce then
      tailLoop reduce_op h_result numTailReduce fuel (i + 1) (reduce_op acc (h_result i))
        (reads ++ [i])
    else (acc, reads)

/-- The host tail reduction of `transform_reduce_enqueue`: the loop run from `i = 0` with
`acc = init`. -/
def hostTailReduce {oType : Type} (reduce_op : oType → oType → oType) (init : oType)
    (h_result : Nat → oType) (numTailReduce : Nat) : oType × List Nat :=
  tailLoop reduce_op h_result numTailReduce numTailReduce 0 init []

/-- The contents of the result buffer after the kernel ran, as a function of the kernel
arguments and the launch geometry: input, transform functor, init, reduce functor,
global size, local size, slot index.  The kernel source is not part of the sources, so
the host code takes it as a parameter. -/
abbrev KernelExec (iType oType : Type) : Type :=
  List iType → (iType → oType) → oType → (oType → oType → oType) → Nat → Nat → Nat → oType

/-- The function `transform_reduce_enqueue`.  Device requests are taken to succeed. -/
def transform_reduce_enqueue {iType oType : Type} (inst : Instantiation)
    (kernel : KernelExec iType oType) (ctl : control) (first_last : List iType)
    (transform_op : iType → oType) (init : oType) (reduce_op : oType → oType → oType)
    (user_code : String) (w : World) : oType × World :=
  let typeDefinitions := user_code ++ inst.clCode
  let w := call_once w (constructAndCompile typeDefinitions inst.args ctl)
  let computeUnits := ctl.maxComputeUnits
  let wgPerComputeUnit := ctl.wgPerComputeUnit
  let numWG := computeUnits * wgPerComputeUnit
  let wgSize := ctl.preferredWorkGroupSizeMultiple
  let w := w.log (Event.acquireBuffer inst.sizeofUnaryFunction)
  let w := w.log (Event.acquireBuffer inst.sizeofBinaryFunction)
  let w := w.log (Event.acquireBuffer (inst.sizeofOType * numWG))
  let szElements := first_last.length % 2 ^ 32
  let numWG := launchNumWG computeUnits wgPerComputeUnit wgSize szElements
  let w := w.log (Event.enqueueNDRangeKernel (numWG * wgSize) wgSize)
  let h_result := kernel first_last transform_op init reduce_op (numWG * wgSize) wgSize
  let w := w.log (Event.enqueueMapBuffer (inst.sizeofOType * numWG))
  let numTail := numTailReduce szElements wgSize numWG
  let w := w.log Event.wait
  let r := hostTailReduce reduce_op init h_result numTail
  (r.1, { w with trace := w.trace ++ r.2.map Event.readResult })

/-- The overload of `transform_reduce_pick_iterator` for
`std::random_access_iterator_tag` (host sequences). -/
def transform_reduce_pick_iterator_random_access {iType oType : Type} [Add oType]
    (inst : Instantiation) (kernel : KernelExec iType oType) (c : control)
    (first_last : List iType) (transform_op : iType → oType) (init : oType)
    (reduce_op : oType → oType → oType) (user_code : String) (w : World) :
    Except cl_Error oType × World :=
  let szElements := first_last.length
  if szElements = 0 then (Except.ok init, w)
  else
    let runMode := c.forceRunMode
    let w := w.log Event.forceRunMode
    match runMode with
    | e_RunMode.SerialCpu =>
      let output := first_last.map transform_op
      let w := w.log (Event.hostTransform szElements)
      let w := w.log (Event.hostAccumulate szElements)
      (Except.ok (output.foldl (fun acc x => acc + x) init), w)
    | e_RunMode.MultiCoreCpu =>
      (Except.ok init, w.log Event.coutNotImplemented)
    | e_RunMode.Accelerator =>
      let w := w.log (Event.stageInput szElements)
      let r := transform_reduce_enqueue inst kernel c first_last transform_op init reduce_op
        user_code w
      (Except.ok r.1, r.2)

/-- The overload of `transform_reduce_pick_iterator` for `bolt::cl::device_vector_tag`
(device-resident sequences). -/
def transform_reduce_pick_iterator_device_vector {iType oType : Type}
    (inst : Instantiation) (kernel : KernelExec iType oType) (c : control)
    (first_last : List iType) (transform_op : iType → oType) (init : oType)
    (reduce_op : oType → oType → oType) (user_code : String) (w : World) :
    Except cl_Error oType × World :=
  let szElements := first_last.length
  if szElements = 0 then (Except.ok init, w)
  else
    let runMode := c.forceRunMode
    let w := w.log Event.forceRunMode
    match runMode with
    | e_RunMode.SerialCpu => (Except.error cl_Error.CL_INVALID_DEVICE, w)
    | e_RunMode.MultiCoreCpu => (Except.error cl_Error.CL_INVALID_DEVICE, w)
    | e_RunMode.Accelerator =>
      let r := transform_reduce_enqueue inst kernel c first_last transform_op init reduce_op
        user_code w
      (Except.ok r.1, r.2)

/-- An iterator pair together with its iterator category. -/
inductive InputRange (iType : Type) where
  | random_access (first_last : List iType)
  | device_vector (first_last : List iType)

/-- The elements between `first` and `last`. -/
def InputRange.elements {iType : Type} : InputRange iType → List iType
  | InputRange.random_access xs => xs
  | InputRange.device_vector xs => xs

end detail

/-- The function `transform_reduce` with a control argument: forwards through
`transform_reduce_detect_random_access` to the overload of
`transform_reduce_pick_iterator` selected by the iterator category. -/
def transform_reduce {iType oType : Type} [Add oType] (inst : detail.Instantiation)
    (kernel : detail.KernelExec iType oType) (ctl : control)
    (range : detail.InputRange iType) (transform_op : iType → oType) (init : oType)
    (reduce_op : oType → oType → oType) (user_code : String) (w : detail.World) :
    Except cl_Error oType × detail.World :=
  match range with
  | detail.InputRange.random_access xs =>
    detail.transform_reduce_pick_iterator_random_access inst kernel ctl xs transform_op init
      reduce_op user_code w
  | detail.InputRange.device_vector xs =>
    detail.transform_reduce_pick_iterator_device_vector inst kernel ctl xs transform_op init
      reduce_op user_code w

end bolt.cl

namespace bolt.cl.detail

/-- Host algorithm calls (`std::transform`, `std::accumulate`) among the effects. -/
def Event.isHostAlgorithm : Event → Bool
  | Event.hostTransform _ => true
  | Event.hostAccumulate _ => true
  | _ => false

/-- Kernel construction among the effects. -/
def Event.isCompile : Event → Bool
  | Event.constructAndCompile _ => true
  | _ => false

/-- Number of executions of `constructAndCompile` observed so far. -/
def compileCount (w : World) : Nat := w.trace.countP Event.isCompile

/-- The arguments of one call of `transform_reduce_enqueue` of a fixed instantiation. -/
structure Call (iType oType : Type) where
  ctl : control
  first_last : List iType
  transform_op : iType → oType
  init : oType
  reduce_op : oType → oType → oType
  user_code : String

/-- The state after one call of `transform_reduce_enqueue`. -/
def Call.run {iType oType : Type} (inst : Instantiation) (kernel : KernelExec iType oType)
    (c : Call iType oType) (w : World) : World :=
  (transform_reduce_enqueue inst kernel c.ctl c.first_last c.transform_op c.init c.reduce_op
    c.user_code w).2

/-- The state after a sequence of calls of the same instantiation, in order. -/
def runCalls {iType oType : Type} (inst : Instantiation) (kernel : KernelExec iType oType)
    (calls : List (Call iType oType)) (w : World) : World :=
  calls.foldl (fun s c => Call.run inst kernel c s) w

/-- Modelled from the spec: the device kernel `transform_reduce_kernels` is not among the
sources.  Following the spec, every launched work-group produces one result, the
reduction by `reduce_op` of the transformed elements it owns, and writes it to its own
slot.  Element `i` is owned by the work-item `i % globalSize`, which belongs to group
`(i % globalSize) / localSize`.  A group that owns no element leaves `init`. -/
def workGroupKernel {iType oType : Type} : KernelExec iType oType :=
  fun input transform_op init reduce_op globalSize localSize g =>
    let owned := (input.enum.filter (fun p => (p.1 % globalSize) / localSize = g)).map
      (fun p => transform_op p.2)
    match owned with
    | [] => init
    | v :: vs => vs.foldl reduce_op v

/-- The exact ceiling of `n / w` on natural numbers. -/
def ceilDiv (n w : Nat) : Nat := (n + w - 1) / w

end bolt.cl.detail

namespace bolt.cl.detail

theorem roundNearestEven_le (num den k : Nat) (hd : 0 < den) (h : num ≤ k * den) :
    roundNearestEven num den ≤ k := by
  unfold roundNearestEven
  have hf : num / den ≤ k := Nat.div_le_of_le_mul (by rw [Nat.mul_comm]; exact h)
  have hdm := Nat.div_add_mod num den
  rcases Nat.lt_or_ge (num / den) k with hlt | hge
  · simp only []
    split_ifs <;> omega
  · have hfk : num / den = k := le_antisymm hf hge
    have hr : num % den = 0 := by
      rw [hfk] at hdm
      have : den * k = k * den := Nat.mul_comm _ _
      omega
    simp only [hr]
    simp [hd, hfk]

theorem le_roundNearestEven (num den k : Nat) (hd : 0 < den) (h : k * den ≤ num) :
    k ≤ roundNearestEven num den := by
  unfold roundNearestEven
  have hf : k ≤ num / den := (Nat.le_div_iff_mul_le hd).2 h
  simp only []
  split_ifs <;> omega

theorem succ_le_roundNearestEven (num den k : Nat) (hd : 0 < den)
    (h : (2 * k + 1) * den < 2 * num) : k + 1 ≤ roundNearestEven num den := by
  unfold roundNearestEven
  have hk : k * den ≤ num := by nlinarith
  have hf : k ≤ num / den := (Nat.le_div_iff_mul_le hd).2 hk
  have hdm := Nat.div_add_mod num den
  rcases Nat.lt_or_ge k (num / den) with hlt | hge
  · simp only []
    split_ifs <;> omega
  · have hfk : num / den = k := le_antisymm hge hf
    rw [hfk] at hdm
    have hr : den < 2 * (num % den) := by nlinarith
    simp only []
    split_ifs <;> omega

theorem ilog2Aux_spec : ∀ (fuel x : Nat), x ≤ fuel → 1 ≤ x →
    2 ^ ilog2Aux fuel x ≤ x ∧ x < 2 ^ (ilog2Aux fuel x + 1)
  | 0, x, h0, h1 => by omega
  | fuel + 1, x, hf, h1 => by
    unfold ilog2Aux
    split_ifs with h2
    · constructor <;> simp <;> omega
    · have ih := ilog2Aux_spec fuel (x / 2) (by omega) (by omega)
      obtain ⟨ih1, ih2⟩ := ih
      constructor
      · rw [pow_succ]; omega
      · rw [pow_succ]; omega

theorem ilog2_spec (x : Nat) (h : 1 ≤ x) : 2 ^ ilog2 x ≤ x ∧ x < 2 ^ (ilog2 x + 1) :=
  ilog2Aux_spec x x (le_refl x) h

theorem ilog2_le_of_lt_pow (x b : Nat) (h : x < 2 ^ (b + 1)) : ilog2 x ≤ b := by
  rcases Nat.eq_zero_or_pos x with h0 | hpos
  · subst h0; simp [ilog2, ilog2Aux]
  · have hs := (ilog2_spec x hpos).1
    by_contra hc
    have hlt : b + 1 ≤ ilog2 x := by omega
    have := Nat.pow_le_pow_right (by norm_num : 0 < 2) hlt
    omega

theorem toFloat_of_lt (x : Nat) (h : x < 2 ^ 24) : toFloat x = x := by
  unfold toFloat
  have := ilog2_le_of_lt_pow x 23 h
  simp [this]

theorem le_toFloat_of_le (x : Nat) (h : 2 ^ 24 ≤ x) : 2 ^ 24 ≤ toFloat x := by
  unfold toFloat
  have hs := ilog2_spec x (by omega)
  simp only []
  split_ifs with he
  · exact h
  · have he24 : 24 ≤ ilog2 x := by omega
    have hpos : 0 < 2 ^ (ilog2 x - 23) := by positivity
    have hsplit : 2 ^ 23 * 2 ^ (ilog2 x - 23) = 2 ^ ilog2 x := by
      rw [← pow_add]; congr 1; omega
    have hr := le_roundNearestEven x (2 ^ (ilog2 x - 23)) (2 ^ 23) hpos (by rw [hsplit]; exact hs.1)
    calc 2 ^ 24 ≤ 2 ^ ilog2 x := Nat.pow_le_pow_right (by norm_num) he24
      _ = 2 ^ 23 * 2 ^ (ilog2 x - 23) := hsplit.symm
      _ ≤ _ := Nat.mul_le_mul_right _ hr

theorem negExpAux_spec (a b : Nat) (ha : 1 ≤ a) : ∀ (fuel k : Nat), b < 2 ^ (fuel + k) →
    b ≤ a * 2 ^ negExpAux a b fuel k
  | 0, k, h => by
    unfold negExpAux
    simp at h
    calc b ≤ 2 ^ k := le_of_lt h
      _ ≤ a * 2 ^ k := Nat.le_mul_of_pos_left _ ha
  | fuel + 1, k, h => by
    unfold negExpAux
    split_ifs with hc
    · exact hc
    · exact negExpAux_spec a b ha fuel (k + 1) (by rw [show fuel + (k + 1) = fuel + 1 + k by omega]; exact h)

theorem negExp_spec (a b : Nat) (ha : 1 ≤ a) : b ≤ a * 2 ^ negExp a b :=
  negExpAux_spec a b ha b 0 (by simpa using Nat.lt_two_pow b)

theorem ceil_of_mantissa (M S k : Nat) (hS : 0 < S) (h1 : k * S + 1 ≤ M) (h2 : M ≤ (k + 1) * S) :
    (M + S - 1) / S = k + 1 := by
  obtain ⟨y, rfl⟩ : ∃ y, M = y + 1 := ⟨M - 1, by omega⟩
  have e : y + 1 + S - 1 = y + S := by omega
  rw [e]
  rw [Nat.add_mul, Nat.one_mul] at h2
  apply Nat.div_eq_of_lt_le
  · rw [Nat.add_mul, Nat.one_mul]; omega
  · rw [Nat.add_mul, Nat.add_mul, Nat.one_mul]; omega

theorem ceil_of_multiple (S k : Nat) (hS : 0 < S) : (k * S + S - 1) / S = k := by
  apply Nat.div_eq_of_lt_le
  · omega
  · rw [Nat.add_mul, Nat.one_mul]; omega

theorem ceilFloatDiv_exact (n w : Nat) (hn : 0 < n) (hw : 0 < w) (hwn : w ≤ n) (hn24 : n < 2 ^ 24) :
    ceilFloatDiv n w = (n + w - 1) / w := by
  unfold ceilFloatDiv
  have hq : 1 ≤ n / w := (Nat.le_div_iff_mul_le hw).2 (by simpa using hwn)
  have hs := ilog2_spec (n / w) hq
  have hqw : n / w * w ≤ n := Nat.div_mul_le_self n w
  have hew : 2 ^ ilog2 (n / w) * w ≤ n := le_trans (Nat.mul_le_mul_right w hs.1) hqw
  have he : ilog2 (n / w) ≤ 23 := by
    apply ilog2_le_of_lt_pow
    calc n / w ≤ n := Nat.div_le_self n w
      _ < 2 ^ 24 := hn24
  have hsplit : 2 ^ ilog2 (n / w) * 2 ^ (23 - ilog2 (n / w)) = 2 ^ 23 := by
    rw [← pow_add]; congr 1; omega
  generalize hS : 2 ^ (23 - ilog2 (n / w)) = S at hsplit
  have hSpos : 0 < S := by rw [← hS]; positivity
  generalize hE : 2 ^ ilog2 (n / w) = E at hsplit hew
  have hw2S : w < 2 * S := by
    by_contra hc
    have h1 : 2 * S ≤ w := by omega
    have h2 : E * (2 * S) ≤ E * w := Nat.mul_le_mul_left E h1
    have h3 : E * (2 * S) = 2 ^ 24 := by rw [show E * (2 * S) = 2 * (E * S) by ring, hsplit]; norm_num
    omega
  have hdm := Nat.div_add_mod n w
  have hmod := Nat.mod_lt n hw
  simp only [show ¬ (n = 0 ∨ w = 0) by omega, hwn, he, if_true, if_false, hS]
  generalize hk : n / w = k at hdm hq
  generalize hr : n % w = r at hdm hmod
  subst hdm
  rcases Nat.eq_zero_or_pos r with h0 | hpos
  · subst h0
    have hnum : (w * k + 0) * S = (k * S) * w := by ring
    have hup : roundNearestEven ((w * k + 0) * S) w ≤ k * S :=
      roundNearestEven_le _ _ _ hw (le_of_eq hnum)
    have hlo : k * S ≤ roundNearestEven ((w * k + 0) * S) w :=
      le_roundNearestEven _ _ _ hw (le_of_eq hnum.symm)
    rw [le_antisymm hup hlo, ceil_of_multiple S k hSpos, Nat.add_zero, Nat.mul_comm w k,
      ceil_of_multiple w k hw]
  · have hrS : S ≤ r * S := Nat.le_mul_of_pos_left S hpos
    have hrw : r * S ≤ w * S := Nat.mul_le_mul_right S (le_of_lt hmod)
    have hup : roundNearestEven ((w * k + r) * S) w ≤ (k + 1) * S := by
      apply roundNearestEven_le _ _ _ hw
      have e1 : (w * k + r) * S = k * S * w + r * S := by ring
      have e2 : (k + 1) * S * w = k * S * w + w * S := by ring
      rw [e1, e2]; omega
    have hlo : k * S + 1 ≤ roundNearestEven ((w * k + r) * S) w := by
      apply succ_le_roundNearestEven _ _ _ hw
      have e1 : 2 * ((w * k + r) * S) = 2 * (k * S) * w + 2 * (r * S) := by ring
      have e2 : (2 * (k * S) + 1) * w = 2 * (k * S) * w + w := by ring
      rw [e1, e2]; omega
    rw [ceil_of_mantissa _ S k hSpos hlo hup]
    symm
    apply Nat.div_eq_of_lt_le
    · rw [Nat.add_mul, Nat.one_mul, Nat.mul_comm k w]; omega
    · rw [Nat.add_mul, Nat.add_mul, Nat.one_mul, Nat.mul_comm k w]; omega

theorem ceilFloatDiv_lt (a b : Nat) (ha : 0 < a) (hab : a < b) : ceilFloatDiv a b = 1 := by
  unfold ceilFloatDiv
  have hne := negExp_spec a b ha
  simp only [show ¬ (a = 0 ∨ b = 0) by omega, show ¬ b ≤ a by omega, if_false]
  generalize hS : 2 ^ (23 + negExp a b) = S
  have hSpos : 0 < S := by rw [← hS]; positivity
  have hle : 2 ^ negExp a b ≤ S := by
    rw [← hS]; exact Nat.pow_le_pow_right (by norm_num) (by omega)
  have hlo : 1 ≤ roundNearestEven (a * S) b := by
    apply le_roundNearestEven _ _ _ (by omega)
    calc 1 * b ≤ a * 2 ^ negExp a b := by simpa using hne
      _ ≤ a * S := Nat.mul_le_mul_left a hle
  have hup : roundNearestEven (a * S) b ≤ S := by
    apply roundNearestEven_le _ _ _ (by omega)
    rw [Nat.mul_comm a S]
    exact Nat.mul_le_mul_left S (le_of_lt hab)
  exact ceil_of_mantissa _ S 0 hSpos (by simpa using hlo) (by simpa using hup)

/-- Below `2 ^ 24` elements the single-precision computation is the exact ceiling. -/
theorem ceilFloat_exact (n w : Nat) (hn : 0 < n) (hw : 0 < w) (hn24 : n < 2 ^ 24) :
    ceilFloat n w = ceilDiv n w := by
  unfold ceilFloat ceilDiv
  rw [toFloat_of_lt n hn24]
  rcases Nat.lt_or_ge w (2 ^ 24) with hw24 | hw24
  · rw [toFloat_of_lt w hw24]
    rcases Nat.lt_or_ge n w with hlt | hge
    · rw [ceilFloatDiv_lt n w hn hlt]
      symm
      apply Nat.div_eq_of_lt_le <;> omega
    · exact ceilFloatDiv_exact n w hn hw hge hn24
  · have := le_toFloat_of_le w hw24
    rw [ceilFloatDiv_lt n _ hn (by omega)]
    symm
    apply Nat.div_eq_of_lt_le <;> omega

theorem le_ceilDiv_mul (n w : Nat) (hw : 0 < w) : n ≤ ceilDiv n w * w := by
  unfold ceilDiv
  have h1 := Nat.div_add_mod (n + w - 1) w
  have h2 := Nat.mod_lt (n + w - 1) hw
  rw [Nat.mul_comm] at h1
  omega

theorem launchNumWG_eq_min (c m w n : Nat) :
    launchNumWG c m w n = min (c * m) (ceilFloat n w) := by
  unfold launchNumWG
  simp only []
  split_ifs with h
  · exact (min_eq_right (le_of_lt h)).symm
  · exact (min_eq_left (not_lt.mp h)).symm

theorem launchNumWG_le (c m w n : Nat) : launchNumWG c m w n ≤ c * m := by
  rw [launchNumWG_eq_min]; exact min_le_left _ _

theorem numTailReduce_eq_min (n w numWG : Nat) :
    numTailReduce n w numWG = min (ceilFloat n w) numWG := by
  unfold numTailReduce clbolt.minimum
  simp only []
  split_ifs with h
  · exact (min_eq_right (le_of_lt h)).symm
  · exact (min_eq_left (not_lt.mp h)).symm

theorem numTailReduce_launchNumWG (c m w n : Nat) :
    numTailReduce n w (launchNumWG c m w n) = launchNumWG c m w n := by
  rw [numTailReduce_eq_min, launchNumWG_eq_min]
  exact min_eq_right (min_le_right _ _)

theorem tailLoop_spec {oType : Type} (reduce_op : oType → oType → oType) (h_result : Nat → oType)
    (k : Nat) : ∀ (fuel i : Nat) (acc : oType) (reads : List Nat), k - i ≤ fuel →
    tailLoop reduce_op h_result k fuel i acc reads =
      (((List.range' i (k - i)).map h_result).foldl reduce_op acc,
        reads ++ List.range' i (k - i))
  | 0, i, acc, reads, h => by
    have h0 : k - i = 0 := by omega
    simp [tailLoop, h0]
  | fuel + 1, i, acc, reads, h => by
    unfold tailLoop
    split_ifs with hlt
    · have hs : k - i = (k - (i + 1)) + 1 := by omega
      rw [tailLoop_spec reduce_op h_result k fuel (i + 1) _ _ (by omega), hs,
        List.range'_succ]
      simp
    · have h0 : k - i = 0 := by omega
      simp [h0]

theorem hostTailReduce_eq {oType : Type} (reduce_op : oType → oType → oType) (init : oType)
    (h_result : Nat → oType) (k : Nat) :
    hostTailReduce reduce_op init h_result k =
      (((List.range k).map h_result).foldl reduce_op init, List.range k) := by
  unfold hostTailReduce
  rw [tailLoop_spec reduce_op h_result k k 0 init [] (by omega)]
  simp [List.range_eq_range']

theorem call_once_trace (w : World) (td : String) (kp : kernelParams) (ctl : control) :
    (call_once w (constructAndCompile td kp ctl)).trace =
      w.trace ++ (if w.initOnlyOnce then [] else [Event.constructAndCompile kp]) := by
  unfold call_once constructAndCompile
  cases h : w.initOnlyOnce <;> simp

theorem call_once_flag (w : World) (f : World → World) : (call_once w f).initOnlyOnce = true := by
  unfold call_once
  cases h : w.initOnlyOnce <;> simp [h]

theorem call_once_kernel (w : World) (td : String) (kp : kernelParams) (ctl : control) :
    (call_once w (constructAndCompile td kp ctl)).masterKernel =
      (if w.initOnlyOnce then w.masterKernel else some ⟨td, kp⟩) := by
  unfold call_once constructAndCompile
  cases h : w.initOnlyOnce <;> simp

/-- The effects of one call of `transform_reduce_enqueue`, after those already observed. -/
theorem transform_reduce_enqueue_trace {iType oType : Type} (inst : Instantiation)
    (kernel : KernelExec iType oType) (ctl : control) (xs : List iType)
    (transform_op : iType → oType) (init : oType) (reduce_op : oType → oType → oType)
    (user_code : String) (w : World) :
    (transform_reduce_enqueue inst kernel ctl xs transform_op init reduce_op user_code w).2.trace =
      w.trace ++ ((if w.initOnlyOnce then [] else [Event.constructAndCompile inst.args]) ++
        ([Event.acquireBuffer inst.sizeofUnaryFunction,
          Event.acquireBuffer inst.sizeofBinaryFunction,
          Event.acquireBuffer (inst.sizeofOType * (ctl.maxComputeUnits * ctl.wgPerComputeUnit)),
          Event.enqueueNDRangeKernel
            (launchNumWG ctl.maxComputeUnits ctl.wgPerComputeUnit
              ctl.preferredWorkGroupSizeMultiple (xs.length % 2 ^ 32) *
              ctl.preferredWorkGroupSizeMultiple) ctl.preferredWorkGroupSizeMultiple,
          Event.enqueueMapBuffer (inst.sizeofOType *
            launchNumWG ctl.maxComputeUnits ctl.wgPerComputeUnit
              ctl.preferredWorkGroupSizeMultiple (xs.length % 2 ^ 32)),
          Event.wait] ++
        (List.range (launchNumWG ctl.maxComputeUnits ctl.wgPerComputeUnit
          ctl.preferredWorkGroupSizeMultiple (xs.length % 2 ^ 32))).map Event.readResult)) := by
  unfold transform_reduce_enqueue
  simp only [World.log, hostTailReduce_eq, numTailReduce_launchNumWG, call_once_trace,
    List.append_assoc, List.singleton_append, List.cons_append, List.nil_append]

/-- The value returned by `transform_reduce_enqueue`: `init` folded from the left with the
slots `0 .. numWG - 1` of the result buffer. -/
theorem transform_reduce_enqueue_result {iType oType : Type} (inst : Instantiation)
    (kernel : KernelExec iType oType) (ctl : control) (xs : List iType)
    (transform_op : iType → oType) (init : oType) (reduce_op : oType → oType → oType)
    (user_code : String) (w : World) :
    (transform_reduce_enqueue inst kernel ctl xs transform_op init reduce_op user_code w).1 =
      ((List.range (launchNumWG ctl.maxComputeUnits ctl.wgPerComputeUnit
          ctl.preferredWorkGroupSizeMultiple (xs.length % 2 ^ 32))).map
        (kernel xs transform_op init reduce_op
          (launchNumWG ctl.maxComputeUnits ctl.wgPerComputeUnit
            ctl.preferredWorkGroupSizeMultiple (xs.length % 2 ^ 32) *
            ctl.preferredWorkGroupSizeMultiple) ctl.preferredWorkGroupSizeMultiple)).foldl
        reduce_op init := by
  unfold transform_reduce_enqueue
  simp only [hostTailReduce_eq, numTailReduce_launchNumWG]

theorem transform_reduce_enqueue_flag {iType oType : Type} (inst : Instantiation)
    (kernel : KernelExec iType oType) (ctl : control) (xs : List iType)
    (transform_op : iType → oType) (init : oType) (reduce_op : oType → oType → oType)
    (user_code : String) (w : World) :
    (transform_reduce_enqueue inst kernel ctl xs transform_op init reduce_op user_code
      w).2.initOnlyOnce = true := by
  unfold transform_reduce_enqueue
  simp only [World.log, call_once_flag]

theorem transform_reduce_enqueue_kernel {iType oType : Type} (inst : Instantiation)
    (kernel : KernelExec iType oType) (ctl : control) (xs : List iType)
    (transform_op : iType → oType) (init : oType) (reduce_op : oType → oType → oType)
    (user_code : String) (w : World) :
    (transform_reduce_enqueue inst kernel ctl xs transform_op init reduce_op user_code
      w).2.masterKernel =
      (if w.initOnlyOnce then w.masterKernel else some ⟨user_code ++ inst.clCode, inst.args⟩) := by
  unfold transform_reduce_enqueue
  simp only [World.log, call_once_kernel]

end bolt.cl.detail

namespace bolt.cl.detail

theorem countP_isCompile_readResult (l : List Nat) :
    (l.map Event.readResult).countP Event.isCompile = 0 := by
  induction l with
  | nil => rfl
  | cons a t ih => simp [List.countP_cons, Event.isCompile, ih]

theorem filter_isHostAlgorithm_readResult (l : List Nat) :
    (l.map Event.readResult).filter Event.isHostAlgorithm = [] := by
  induction l with
  | nil => rfl
  | cons a t ih => simp [List.filter_cons, Event.isHostAlgorithm, ih]

theorem compileCount_run {iType oType : Type} (inst : Instantiation)
    (kernel : KernelExec iType oType) (c : Call iType oType) (w : World) :
    compileCount (Call.run inst kernel c w) =
      compileCount w + (if w.initOnlyOnce then 0 else 1) := by
  unfold compileCount Call.run
  rw [transform_reduce_enqueue_trace]
  cases h : w.initOnlyOnce <;>
    simp [List.countP_append, List.countP_cons, Event.isCompile, countP_isCompile_readResult]

theorem runCalls_of_flag {iType oType : Type} (inst : Instantiation)
    (kernel : KernelExec iType oType) :
    ∀ (cs : List (Call iType oType)) (w : World), w.initOnlyOnce = true →
      (runCalls inst kernel cs w).initOnlyOnce = true ∧
      compileCount (runCalls inst kernel cs w) = compileCount w ∧
      (runCalls inst kernel cs w).masterKernel = w.masterKernel
  | [], w, h => ⟨h, rfl, rfl⟩
  | c :: cs, w, h => by
    have hf : (Call.run inst kernel c w).initOnlyOnce = true :=
      transform_reduce_enqueue_flag _ _ _ _ _ _ _ _ _
    have hc : compileCount (Call.run inst kernel c w) = compileCount w := by
      rw [compileCount_run, h]; simp
    have hk : (Call.run inst kernel c w).masterKernel = w.masterKernel := by
      unfold Call.run
      rw [transform_reduce_enqueue_kernel, h]; simp
    obtain ⟨h1, h2, h3⟩ := runCalls_of_flag inst kernel cs (Call.run inst kernel c w) hf
    refine ⟨?_, ?_, ?_⟩
    · exact h1
    · exact h2.trans hc
    · exact h3.trans hk

theorem compileCount_runCalls_le {iType oType : Type} (inst : Instantiation)
    (kernel : KernelExec iType oType) (cs : List (Call iType oType)) :
    compileCount (runCalls inst kernel cs World.initial) ≤ 1 := by
  cases cs with
  | nil => simp [runCalls, compileCount, World.initial]
  | cons c cs =>
    have hf : (Call.run inst kernel c World.initial).initOnlyOnce = true :=
      transform_reduce_enqueue_flag _ _ _ _ _ _ _ _ _
    have h := (runCalls_of_flag inst kernel cs _ hf).2.1
    have h1 := compileCount_run inst kernel c World.initial
    show compileCount (runCalls inst kernel cs (Call.run inst kernel c World.initial)) ≤ 1
    rw [h, h1]
    simp [World.initial, compileCount]

end bolt.cl.detail

namespace bolt.cl

open detail

/-- C1: over an empty sequence `transform_reduce` returns exactly `init` and leaves the
state untouched (no mode query, no compilation, no buffer request, no error), for every
control (hence every run mode), for the host overload and the device-vector overload of
`transform_reduce_pick_iterator`, and through the public entry point. -/
theorem transform_reduce_empty_returns_init {iType oType : Type} [Add oType]
    (inst : Instantiation) (kernel : KernelExec iType oType) (ctl : control)
    (transform_op : iType → oType) (init : oType) (reduce_op : oType → oType → oType)
    (user_code : String) (w : World) :
    transform_reduce_pick_iterator_random_access inst kernel ctl [] transform_op init
        reduce_op user_code w = (Except.ok init, w) ∧
    transform_reduce_pick_iterator_device_vector inst kernel ctl [] transform_op init
        reduce_op user_code w = (Except.ok init, w) ∧
    transform_reduce inst kernel ctl (InputRange.random_access []) transform_op init
        reduce_op user_code w = (Except.ok init, w) ∧
    transform_reduce inst kernel ctl (InputRange.device_vector []) transform_op init
        reduce_op user_code w = (Except.ok init, w) :=
  ⟨rfl, rfl, rfl, rfl⟩

/-- C2: in `SerialCpu` mode the host overload returns `init` plus the sum of the
transformed elements, whatever `reduce_op` is (the call of `std::accumulate` is not given
`reduce_op`); for input `[2, 3, 4]`, transform `square`, `init = 1` and reduce
`multiplies` the code returns `30`, while the left fold of `multiplies` is `576`. -/
theorem sequential_mode_ignores_reduce_op :
    (∀ (inst : Instantiation) (kernel : KernelExec Int Int) (ctl : control) (x : Int)
        (xs : List Int) (transform_op : Int → Int) (init : Int) (reduce_op : Int → Int → Int)
        (user_code : String) (w : World),
      (transform_reduce inst kernel { ctl with forceRunMode := e_RunMode.SerialCpu }
        (InputRange.random_access (x :: xs)) transform_op init reduce_op user_code w).1 =
        Except.ok (((x :: xs).map transform_op).foldl (fun acc y => acc + y) init)) ∧
    (∀ (inst : Instantiation) (kernel : KernelExec Int Int) (ctl : control)
        (user_code : String) (w : World),
      (transform_reduce inst kernel { ctl with forceRunMode := e_RunMode.SerialCpu }
        (InputRange.random_access [2, 3, 4]) clbolt.square 1 clbolt.multiplies user_code w).1 =
        Except.ok 30) ∧
    (([2, 3, 4] : List Int).map clbolt.square).foldl clbolt.multiplies 1 = 576 :=
  ⟨fun _ _ _ _ _ _ _ _ _ _ => rfl, fun _ _ _ _ _ => rfl, by decide⟩

/-- C3: for input `[2, 3, 4]`, transform `square`, `init = 1` and the associative,
commutative reduce `multiplies` on integers, with a kernel whose single launched
work-group writes the reduction `4 * 9 * 16 = 576` of all transformed elements, the
`Accelerator` mode returns `576` and the `SerialCpu` mode returns `30`. -/
theorem accelerator_and_sequential_differ (inst : Instantiation) (kernel : KernelExec Int Int)
    (user_code : String) (w : World)
    (hk : kernel [2, 3, 4] clbolt.square 1 clbolt.multiplies 64 64 0 = 576) :
    (transform_reduce inst kernel ⟨e_RunMode.Accelerator, 4, 2, 64⟩
      (InputRange.random_access [2, 3, 4]) clbolt.square 1 clbolt.multiplies user_code w).1 =
      Except.ok 576 ∧
    (transform_reduce inst kernel ⟨e_RunMode.SerialCpu, 4, 2, 64⟩
      (InputRange.random_access [2, 3, 4]) clbolt.square 1 clbolt.multiplies user_code w).1 =
      Except.ok 30 := by
  refine ⟨?_, rfl⟩
  show Except.ok (transform_reduce_enqueue inst kernel ⟨e_RunMode.Accelerator, 4, 2, 64⟩
    [2, 3, 4] clbolt.square 1 clbolt.multiplies user_code _).1 = Except.ok 576
  rw [transform_reduce_enqueue_result]
  have hn : launchNumWG 4 2 64 ([2, 3, 4] : List Int).length = 1 := by decide
  have hm : ([2, 3, 4] : List Int).length % 2 ^ 32 = ([2, 3, 4] : List Int).length := by decide
  simp only [hm, hn]
  rw [show List.range 1 = [0] from rfl]
  simp only [List.map_cons, List.map_nil, List.foldl_cons, List.foldl_nil, hk]
  rfl

/-- Witness for C3: the modelled work-group kernel satisfies the hypothesis. -/
theorem accelerator_and_sequential_differ_witness :
    workGroupKernel [2, 3, 4] (clbolt.square : Int → Int) 1 clbolt.multiplies 64 64 0 = 576 ∧
    (transform_reduce default workGroupKernel ⟨e_RunMode.Accelerator, 4, 2, 64⟩
      (InputRange.random_access [2, 3, 4]) clbolt.square (1 : Int) clbolt.multiplies default
      World.initial).1 = Except.ok 576 ∧
    (transform_reduce default workGroupKernel ⟨e_RunMode.SerialCpu, 4, 2, 64⟩
      (InputRange.random_access [2, 3, 4]) clbolt.square (1 : Int) clbolt.multiplies default
      World.initial).1 = Except.ok 30 :=
  ⟨by decide, accelerator_and_sequential_differ default workGroupKernel default World.initial
    (by decide)⟩

/-- C4 as stated fails: with one compute unit, one work-group per compute unit,
work-group size 64 and 1000 elements the launched grid has 64 work-items. -/
theorem launch_grid_smaller_than_input :
    0 < 1000 ∧ 0 < 64 ∧ ¬ (launchNumWG 1 1 64 1000 * 64 ≥ 1000) := by decide

/-- C4 amended: for `0 < n < 2 ^ 24` and `w > 0` the launched grid `numWG * w` has at
least `n` work-items exactly when the device grid `c * m * w` has, and the work-group
count never exceeds `c * m`. -/
theorem launch_grid_covers_iff (c m w n : Nat) (hn : 0 < n) (hw : 0 < w) (hn24 : n < 2 ^ 24) :
    (n ≤ launchNumWG c m w n * w ↔ n ≤ c * m * w) ∧ launchNumWG c m w n ≤ c * m := by
  refine ⟨?_, launchNumWG_le c m w n⟩
  rw [launchNumWG_eq_min, ceilFloat_exact n w hn hw hn24]
  have hc := le_ceilDiv_mul n w hw
  rcases le_total (c * m) (ceilDiv n w) with h | h
  · rw [min_eq_left h]
  · rw [min_eq_right h]
    constructor
    · intro _
      exact le_trans hc (Nat.mul_le_mul_right w h)
    · intro _
      exact hc

/-- Witness for C4 amended: 1000 elements, work-group size 64, 4 compute units with 8
work-groups each. -/
theorem launch_grid_covers_iff_witness :
    (0 < 1000 ∧ 0 < 64 ∧ 1000 < 2 ^ 24) ∧
    ((1000 ≤ launchNumWG 4 8 64 1000 * 64 ↔ 1000 ≤ 4 * 8 * 64) ∧
      launchNumWG 4 8 64 1000 ≤ 4 * 8) :=
  ⟨by decide, launch_grid_covers_iff 4 8 64 1000 (by decide) (by decide) (by decide)⟩

/-- C5: the code plans `min (c * m) r` work-groups, where `r` is the single-precision
value `ceil((float)n / w)`; `r` is the exact ceiling for `0 < n < 2 ^ 24`, but with 32
compute units, 16384 work-groups per compute unit, work-group size 64 and 16777217
elements the code plans 262144 work-groups, while `min (c * m) (ceil (n / w))` is
262145: the conversion of the element count to `float` loses its last bit. -/
theorem launchNumWG_below_exact_ceiling :
    (∀ c m w n : Nat, launchNumWG c m w n = min (c * m) (ceilFloat n w)) ∧
    (∀ n w : Nat, 0 < n → 0 < w → n < 2 ^ 24 → ceilFloat n w = ceilDiv n w) ∧
    launchNumWG 32 16384 64 16777217 = 262144 ∧
    min (32 * 16384) (ceilDiv 16777217 64) = 262145 ∧
    toFloat 16777217 = 16777216 :=
  ⟨launchNumWG_eq_min, ceilFloat_exact, by decide, by decide, by decide⟩

/-- C6: the host tail reduction returns the left fold of `reduce_op` from `init` over the
slots `0 .. k - 1`, read once each in ascending order, with `k = min r numWG` and `r`
the single-precision value `ceil((float)n / w)`.  With 32 compute units, 524289
work-groups per compute unit, work-group size 64 and 1073742016 elements it reads the
slots `0 .. 16777219`, that is 16777220 slots, while `min (ceil (n / w)) numWG` is
16777219. -/
theorem tail_reduction_reads_extra_slot {oType : Type} (reduce_op : oType → oType → oType)
    (init : oType) (h_result : Nat → oType) :
    (∀ n w numWG : Nat,
      hostTailReduce reduce_op init h_result (numTailReduce n w numWG) =
        (((List.range (min (ceilFloat n w) numWG)).map h_result).foldl reduce_op init,
          List.range (min (ceilFloat n w) numWG))) ∧
    hostTailReduce reduce_op init h_result
        (numTailReduce 1073742016 64 (launchNumWG 32 524289 64 1073742016)) =
      (((List.range 16777220).map h_result).foldl reduce_op init, List.range 16777220) ∧
    min (ceilDiv 1073742016 64) (launchNumWG 32 524289 64 1073742016) = 16777219 := by
  have h1 : numTailReduce 1073742016 64 (launchNumWG 32 524289 64 1073742016) = 16777220 := by
    decide
  have h2 : min (ceilDiv 1073742016 64) (launchNumWG 32 524289 64 1073742016) = 16777219 := by
    decide
  refine ⟨fun n w numWG => ?_, ?_, h2⟩
  · rw [hostTailReduce_eq, numTailReduce_eq_min]
  · rw [h1, hostTailReduce_eq]

end bolt.cl

namespace bolt.cl

open detail

/-- C7: for a device-resident sequence the call ends in `::cl::Error(CL_INVALID_DEVICE)`,
without a value, exactly when the sequence is non-empty and the run mode is `SerialCpu`
or `MultiCoreCpu`; in `Accelerator` mode a non-empty sequence goes to
`transform_reduce_enqueue` and its value is returned; and no call with a device-resident
sequence runs the host `std::transform` or `std::accumulate`. -/
theorem device_vector_error_iff {iType oType : Type} (inst : Instantiation)
    (kernel : KernelExec iType oType) (c : control) (xs : List iType)
    (transform_op : iType → oType) (init : oType) (reduce_op : oType → oType → oType)
    (user_code : String) (w : World) :
    ((transform_reduce_pick_iterator_device_vector inst kernel c xs transform_op init
        reduce_op user_code w).1 = Except.error cl_Error.CL_INVALID_DEVICE ↔
      (xs ≠ [] ∧ (c.forceRunMode = e_RunMode.SerialCpu ∨
        c.forceRunMode = e_RunMode.MultiCoreCpu))) ∧
    (∀ (x : iType) (ys : List iType),
      transform_reduce_pick_iterator_device_vector inst kernel
          { c with forceRunMode := e_RunMode.Accelerator } (x :: ys) transform_op init
          reduce_op user_code w =
        (Except.ok (transform_reduce_enqueue inst kernel
            { c with forceRunMode := e_RunMode.Accelerator } (x :: ys) transform_op init
            reduce_op user_code (w.log Event.forceRunMode)).1,
          (transform_reduce_enqueue inst kernel
            { c with forceRunMode := e_RunMode.Accelerator } (x :: ys) transform_op init
            reduce_op user_code (w.log Event.forceRunMode)).2)) ∧
    (∃ evs : List Event,
      (transform_reduce_pick_iterator_device_vector inst kernel c xs transform_op init
        reduce_op user_code w).2.trace = w.trace ++ evs ∧
      evs.filter Event.isHostAlgorithm = []) := by
  refine ⟨?_, fun _ _ => rfl, ?_⟩
  · cases xs with
    | nil => simp [transform_reduce_pick_iterator_device_vector]
    | cons x ys =>
      cases hm : c.forceRunMode <;>
        simp [transform_reduce_pick_iterator_device_vector, hm]
  · cases xs with
    | nil => exact ⟨[], by simp [transform_reduce_pick_iterator_device_vector], rfl⟩
    | cons x ys =>
      cases hm : c.forceRunMode
      · exact ⟨[Event.forceRunMode],
          by simp [transform_reduce_pick_iterator_device_vector, hm, World.log], rfl⟩
      · exact ⟨[Event.forceRunMode],
          by simp [transform_reduce_pick_iterator_device_vector, hm, World.log], rfl⟩
      · have ht := transform_reduce_enqueue_trace inst kernel c (x :: ys) transform_op init
          reduce_op user_code (w.log Event.forceRunMode)
        simp only [World.log, List.append_assoc, List.singleton_append] at ht
        have hp : (transform_reduce_pick_iterator_device_vector inst kernel c (x :: ys)
            transform_op init reduce_op user_code w).2.trace =
            (transform_reduce_enqueue inst kernel c (x :: ys) transform_op init reduce_op
              user_code (w.log Event.forceRunMode)).2.trace := by
          simp only [transform_reduce_pick_iterator_device_vector, hm, List.length_cons,
            Nat.succ_ne_zero, if_false]
        have ht2 := hp.trans ht
        refine ⟨_, ht2, ?_⟩
        by_cases hf : w.initOnlyOnce = true <;>
          simp [hf, List.filter_cons, Event.isHostAlgorithm, filter_isHostAlgorithm_readResult]

/-- C8: in `MultiCoreCpu` mode a call on a non-empty host sequence returns `init`
unchanged whatever the functors are; its only effects are the mode query and the console
message, so nothing is transformed, nothing is reduced, and the accelerator path is not
entered. -/
theorem multicore_returns_init {iType oType : Type} [Add oType] (inst : Instantiation)
    (kernel : KernelExec iType oType) (c : control) (x : iType) (xs : List iType)
    (transform_op : iType → oType) (init : oType) (reduce_op : oType → oType → oType)
    (user_code : String) (w : World) :
    transform_reduce inst kernel { c with forceRunMode := e_RunMode.MultiCoreCpu }
        (InputRange.random_access (x :: xs)) transform_op init reduce_op user_code w =
      (Except.ok init,
        { w with trace := w.trace ++ [Event.forceRunMode, Event.coutNotImplemented] }) := by
  simp [transform_reduce, transform_reduce_pick_iterator_random_access, World.log]

/-- C9: starting from the initial state, in any sequence of calls of
`transform_reduce_enqueue` of one instantiation, `constructAndCompile` has run exactly
once after the first call and still exactly once after any number of later calls, the
kernel stored by the first call is the one in place after every later call, and in no
reachable state has it run more than once. -/
theorem compile_exactly_once {iType oType : Type} (inst : Instantiation)
    (kernel : KernelExec iType oType) (c : Call iType oType) (cs : List (Call iType oType)) :
    compileCount World.initial = 0 ∧
    compileCount (Call.run inst kernel c World.initial) = 1 ∧
    compileCount (runCalls inst kernel (c :: cs) World.initial) = 1 ∧
    (runCalls inst kernel (c :: cs) World.initial).masterKernel =
      some ⟨c.user_code ++ inst.clCode, inst.args⟩ ∧
    compileCount (runCalls inst kernel cs World.initial) ≤ 1 := by
  have hf : (Call.run inst kernel c World.initial).initOnlyOnce = true :=
    transform_reduce_enqueue_flag _ _ _ _ _ _ _ _ _
  have h1 : compileCount (Call.run inst kernel c World.initial) = 1 := by
    rw [compileCount_run]; simp [World.initial, compileCount]
  have hk : (Call.run inst kernel c World.initial).masterKernel =
      some ⟨c.user_code ++ inst.clCode, inst.args⟩ := by
    unfold Call.run
    rw [transform_reduce_enqueue_kernel]; simp [World.initial]
  obtain ⟨_, h2, h3⟩ := runCalls_of_flag inst kernel cs _ hf
  exact ⟨rfl, h1, h2.trans h1, h3.trans hk, compileCount_runCalls_le inst kernel cs⟩

/-- C10: every index `i` that a call of `transform_reduce_enqueue` reads from the result
buffer is below the number of launched work-groups, which is at most the number of slots
`c * m` requested for the buffer; the slot lies inside the mapped region of
`sizeof(oType) * numWG` bytes; and `numTailReduce` equals the launched `numWG`.  The
buffer request, the launch and the mapping with these sizes are among the effects of the
call. -/
theorem tail_reads_within_launched_slots {iType oType : Type} (inst : Instantiation)
    (kernel : KernelExec iType oType) (ctl : control) (xs : List iType)
    (transform_op : iType → oType) (init : oType) (reduce_op : oType → oType → oType)
    (user_code : String) (w : World) (i : Nat)
    (hi : Event.readResult i ∈
      ((transform_reduce_enqueue inst kernel ctl xs transform_op init reduce_op user_code
        w).2.trace.drop w.trace.length)) :
    i < launchNumWG ctl.maxComputeUnits ctl.wgPerComputeUnit
        ctl.preferredWorkGroupSizeMultiple (xs.length % 2 ^ 32) ∧
    launchNumWG ctl.maxComputeUnits ctl.wgPerComputeUnit
        ctl.preferredWorkGroupSizeMultiple (xs.length % 2 ^ 32) ≤
      ctl.maxComputeUnits * ctl.wgPerComputeUnit ∧
    inst.sizeofOType * (i + 1) ≤ inst.sizeofOType *
      launchNumWG ctl.maxComputeUnits ctl.wgPerComputeUnit
        ctl.preferredWorkGroupSizeMultiple (xs.length % 2 ^ 32) ∧
    numTailReduce (xs.length % 2 ^ 32) ctl.preferredWorkGroupSizeMultiple
        (launchNumWG ctl.maxComputeUnits ctl.wgPerComputeUnit
          ctl.preferredWorkGroupSizeMultiple (xs.length % 2 ^ 32)) =
      launchNumWG ctl.maxComputeUnits ctl.wgPerComputeUnit
        ctl.preferredWorkGroupSizeMultiple (xs.length % 2 ^ 32) ∧
    Event.acquireBuffer (inst.sizeofOType * (ctl.maxComputeUnits * ctl.wgPerComputeUnit)) ∈
      (transform_reduce_enqueue inst kernel ctl xs transform_op init reduce_op user_code
        w).2.trace.drop w.trace.length ∧
    Event.enqueueNDRangeKernel
        (launchNumWG ctl.maxComputeUnits ctl.wgPerComputeUnit
          ctl.preferredWorkGroupSizeMultiple (xs.length % 2 ^ 32) *
          ctl.preferredWorkGroupSizeMultiple) ctl.preferredWorkGroupSizeMultiple ∈
      (transform_reduce_enqueue inst kernel ctl xs transform_op init reduce_op user_code
        w).2.trace.drop w.trace.length ∧
    Event.enqueueMapBuffer (inst.sizeofOType *
        launchNumWG ctl.maxComputeUnits ctl.wgPerComputeUnit
          ctl.preferredWorkGroupSizeMultiple (xs.length % 2 ^ 32)) ∈
      (transform_reduce_enqueue inst kernel ctl xs transform_op init reduce_op user_code
        w).2.trace.drop w.trace.length := by
  rw [transform_reduce_enqueue_trace, List.drop_left] at hi ⊢
  have hlt : i < launchNumWG ctl.maxComputeUnits ctl.wgPerComputeUnit
      ctl.preferredWorkGroupSizeMultiple (xs.length % 2 ^ 32) := by
    cases hf : w.initOnlyOnce <;> simpa [hf] using hi
  refine ⟨hlt, launchNumWG_le _ _ _ _, Nat.mul_le_mul_left _ hlt,
    numTailReduce_launchNumWG _ _ _ _, ?_, ?_, ?_⟩ <;>
  simp

/-- Witness for C10: seven elements, work-group size 2, 4 compute units with 2
work-groups each; slot 3 is read. -/
theorem tail_reads_within_launched_slots_witness :
    Event.readResult 3 ∈
      ((transform_reduce_enqueue default workGroupKernel ⟨e_RunMode.Accelerator, 4, 2, 2⟩
        [1, 2, 3, 4, 5, 6, 7] (fun x : Int => x) 0 clbolt.plus default
        World.initial).2.trace.drop World.initial.trace.length) ∧
    3 < launchNumWG 4 2 2 (([1, 2, 3, 4, 5, 6, 7] : List Int).length % 2 ^ 32) ∧
    launchNumWG 4 2 2 (([1, 2, 3, 4, 5, 6, 7] : List Int).length % 2 ^ 32) ≤ 4 * 2 :=
  ⟨by decide,
    (tail_reads_within_launched_slots default workGroupKernel ⟨e_RunMode.Accelerator, 4, 2, 2⟩
      [1, 2, 3, 4, 5, 6, 7] (fun x : Int => x) 0 clbolt.plus default World.initial 3
      (by decide)).1,
    (tail_reads_within_launched_slots default workGroupKernel ⟨e_RunMode.Accelerator, 4, 2, 2⟩
      [1, 2, 3, 4, 5, 6, 7] (fun x : Int => x) 0 clbolt.plus default World.initial 3
      (by decide)).2.1⟩

end bolt.cl
